import Mathlib

/-!
Shallow embedding of the `ripio` repository-reference and completion core
(`src/ripio/__init__.py` and `src/ripio/cli.py`).

Python strings are modelled as `List Char` (`Str`); Python exceptions as the
`Err` inductive, with fallible code returning `Except Err _`.  Network
replies are modelled by explicit oracle arguments passed to the functions
that perform HTTP requests.
-/

deriving instance DecidableEq for Except

namespace Ripio

/-- Python `str` is modelled as a list of characters. -/
abbrev Str := List Char

/-- Python `s.count(c)` for a one-character argument. -/
def countChar (c : Char) (s : Str) : Nat := s.count c

/-- Python `s.split(sep)` for a one-character separator. -/
def splitChar (c : Char) : Str → List Str
  | [] => [[]]
  | x :: xs =>
    match splitChar c xs with
    | [] => [[]]
    | h :: t => if x = c then [] :: h :: t else (x :: h) :: t

/-- Python `s.startswith(p)`: `hasPre p s` is true when `s` starts with `p`. -/
def hasPre : Str → Str → Bool
  | [], _ => true
  | _ :: _, [] => false
  | p :: ps, s :: ss => p = s && hasPre ps ss

/-- Split at the first occurrence of `c`: `some (before, after)`, or `none`
when `c` does not occur. -/
def splitFirst (c : Char) : Str → Option (Str × Str)
  | [] => none
  | x :: xs =>
    if x = c then some ([], xs)
    else
      match splitFirst c xs with
      | none => none
      | some (a, b) => some (x :: a, b)

/-- Tests whether `s` ends with `g`. -/
def endsIn (g s : Str) : Bool := hasPre g.reverse s.reverse

/-- Python exceptions raised by the embedded code.  Constructors carry the
string payload (`str(...)` of the argument) where the claims need it. -/
inductive Err where
  | badRepositoryName (s : Str)
  | badWorkspaceName (s : Str)
  | unsupportedSite (s : Str)
  | configError
  | wrongCompletion (s : Str)
  | accessDenied (s : Str)
  | repositoryNotFound (s : Str)
  | rateLimitExceeded
  | remoteError
  | networkError
  | directoryAlreadyExists
  | directoryIsNotRepository
  | missingRemoteOrigin
  | repositoryAlreadyCloned
  | unrelatedRepository (s : Str)
  | alreadyExists
  | valueError
  | keyError
  | indexError
  | typeError
  deriving DecidableEq, Repr

/-- The `sites` host table: `bitbucket.org → bitbucket`,
`github.com → github`; `none` models Python's `KeyError` on lookup. -/
def sitesHost (host : Str) : Option Str :=
  if host = (r"bitbucket.org").toList then some ((r"bitbucket").toList)
  else if host = (r"github.com").toList then some ((r"github").toList)
  else none

/-- The `SITE_ABBREVS` table. -/
def siteAbbrevs (s : Str) : Option Str :=
  if s = (r"bitbucket").toList ∨ s = (r"bb").toList then
    some ((r"bitbucket").toList)
  else if s = (r"github").toList ∨ s = (r"gh").toList then
    some ((r"github").toList)
  else none

/-- Matcher for the regex tail `(.+).git\Z` used by the `ssh://` and `git@`
branches of `RepoRef.parse_origin` (the dot before `git` matches any
character except a newline): the match succeeds iff the text ends in `git`,
is at least 5 characters long and has no newline outside the final `git`;
the captured group is the text minus its last four characters. -/
def matchDotGit (t : Str) : Option Str :=
  if 5 ≤ t.length ∧ endsIn ((r"git").toList) t = true ∧
      '\n' ∉ t.take (t.length - 3) then
    some (t.take (t.length - 4))
  else none

/-- Matcher for the regex tail `(.+)(?:\.git)?\Z` of the `https://` branch:
the greedy `(.+)` always captures the whole remainder, so the optional
`\.git` group never consumes anything. -/
def matchHttpsPath (t : Str) : Option Str :=
  if 1 ≤ t.length ∧ '\n' ∉ t then some t else none

/-- Matcher for `([^X]+)X` at the start of the text: the captured group is
the (non-empty) text before the first occurrence of the delimiter. -/
def matchHostUpTo (c : Char) (t : Str) : Option (Str × Str) :=
  match splitFirst c t with
  | none => none
  | some (h, rest) => if h = [] then none else some (h, rest)

/-- Builds `'{}:{}'.format(sites[host], path)`; unknown host is a `KeyError`. -/
def siteLookup (host path : Str) : Except Err Str :=
  match sitesHost host with
  | none => .error .keyError
  | some site => .ok (site ++ ':' :: path)

/-- `RepoRef.parse_origin`.  `re.findall(...)[0]` on a non-matching URL is
Python's `IndexError`. -/
def parse_origin (url : Str) : Except Err Str :=
  if hasPre ((r"ssh://").toList) url then
    if hasPre ((r"ssh://git@").toList) url then
      match matchHostUpTo '/' (url.drop 10) with
      | none => .error .indexError
      | some (host, t) =>
        match matchDotGit t with
        | none => .error .indexError
        | some path => siteLookup host path
    else .error .indexError
  else if hasPre ((r"git@").toList) url then
    match matchHostUpTo ':' (url.drop 4) with
    | none => .error .indexError
    | some (host, t) =>
      match matchDotGit t with
      | none => .error .indexError
      | some path => siteLookup host path
  else if hasPre ((r"https://").toList) url then
    match matchHostUpTo '/' (url.drop 8) with
    | none => .error .indexError
    | some (host, t) =>
      match matchHttpsPath t with
      | none => .error .indexError
      | some path => siteLookup host path
  else .error (.badRepositoryName url)

/-- The `WorkspaceName` value: a `(site, workspace)` pair with the site name already
canonicalised through `SITE_ABBREVS`. -/
structure WorkspaceName where
  site : Str
  workspace : Str
  deriving DecidableEq, Repr

/-- Embeds `WorkspaceName.__init__`. -/
def WorkspaceName.make (full : Str) (site : Option Str) :
    Except Err WorkspaceName :=
  if 1 < countChar ':' full ∨ '/' ∈ full then
    .error (.badWorkspaceName full)
  else
    let step : Except Err (Str × Str) :=
      match splitChar ':' full with
      | [a, b] => .ok (a, b)
      | _ =>
        match site with
        | none => .error (.badWorkspaceName full)
        | some s => .ok (s, full)
    match step with
    | .error e => .error e
    | .ok (s, w) =>
      match siteAbbrevs s with
      | none => .error (.unsupportedSite s)
      | some canon => .ok ⟨canon, w⟩

/-- The `RepoRef` value: owner workspace plus repository slug. -/
structure RepoRef where
  owner : WorkspaceName
  slug : Str
  deriving DecidableEq, Repr

/-- Embeds `self.site`. -/
def RepoRef.site (ref : RepoRef) : Str := ref.owner.site

/-- Embeds `self.full_name`. -/
def RepoRef.full_name (ref : RepoRef) : Str :=
  ref.owner.workspace ++ '/' :: ref.slug

/-- Embeds `self.global_name` (also `str(self)`). -/
def RepoRef.global_name (ref : RepoRef) : Str :=
  ref.site ++ ':' :: ref.full_name

/-- Embeds `RepoRef.__eq__`: equality by `global_name`. -/
def refEq (a b : RepoRef) : Bool := a.global_name = b.global_name

/-- Embeds `RepoRef.__init__`. -/
def RepoRef.make (name0 : Str) (site : Option Str) : Except Err RepoRef :=
  let stepName : Except Err Str :=
    if hasPre ((r"https://").toList) name0 ∨ hasPre ((r"git@").toList) name0 ∨
        hasPre ((r"ssh://").toList) name0 then
      parse_origin name0
    else .ok name0
  match stepName with
  | .error e => .error e
  | .ok name =>
    if countChar '/' name ≠ 1 then .error (.badRepositoryName name)
    else
      match splitChar '/' name with
      | [o, s] =>
        match WorkspaceName.make o site with
        | .error e => .error e
        | .ok ow => .ok ⟨ow, s⟩
      | _ => .error (.badRepositoryName name)

/-- Embeds `RepoRef.from_origin`. -/
def RepoRef.from_origin (url : Str) : Except Err RepoRef :=
  match parse_origin url with
  | .error e => .error e
  | .ok s => RepoRef.make s none

/-- Embeds `RepoRef.from_parts`. -/
def RepoRef.from_parts (workspace name : Str) (site : Option Str) :
    Except Err RepoRef :=
  RepoRef.make (workspace ++ '/' :: name) site

/-- The `Credentials` value: a username/password pair. -/
structure Credentials where
  username : Str
  password : Str
  deriving DecidableEq, Repr

/-- Embeds `Credentials.__init__`: `self.username, self.password =
credentials.split(':')`.  The split uses every colon, so unpacking raises
`ValueError` unless the string contains exactly one colon. -/
def Credentials.make (credentials : Str) : Except Err Credentials :=
  match splitChar ':' credentials with
  | [u, p] => .ok ⟨u, p⟩
  | _ => .error .valueError

/-- End-of-netloc delimiters recognised by `urlparse`. -/
def netlocEnd (c : Char) : Bool := c = '/' ∨ c = '?' ∨ c = '#'

/-- Split `urlparse`-style: the netloc is everything before the first `/`,
`?` or `#`; the rest (delimiter included) is returned unchanged, which is
how `urlunparse` reassembles it for the URLs in scope. -/
def splitNetloc : Str → Str × Str
  | [] => ([], [])
  | x :: xs =>
    if netlocEnd x then ([], x :: xs)
    else
      let (a, b) := splitNetloc xs
      (x :: a, b)

/-- Embeds `Auth.auth` for URLs of the form `https://netloc...` (the claims' scope;
the code asserts `url.startswith('https')`).  With credentials, the netloc
is replaced by `user:pass@` followed by `netloc.split('@')[1]` when the
netloc contains an `@`, or by the whole netloc otherwise. -/
def Auth.auth (credentials : Option Credentials) (url : Str) : Str :=
  match credentials with
  | none => url
  | some c =>
    let rest := url.drop 8
    let (netloc, tail) := splitNetloc rest
    let host :=
      if '@' ∈ netloc then
        match splitChar '@' netloc with
        | _ :: h :: _ => h
        | _ => []
      else netloc
    (r"https://").toList ++ c.username ++ ':' :: c.password ++ '@' :: host
      ++ tail

/-- An HTTP reply, reduced to the fields the error-classification code
inspects.  `ctJson`/`ctHtml` say whether the `Content-Type` header (when
present) contains `application/json` / `text/html`; `jsonParses` whether
`reply.json()` succeeds; `bbErrorKey` whether the parsed JSON body carries
the Bitbucket `error` key; `ghErrorsBad` whether it carries a GitHub
`errors` key holding an empty list. -/
structure Reply where
  status : Nat
  hasContent : Bool
  hasContentTypeHeader : Bool
  ctJson : Bool
  ctHtml : Bool
  jsonParses : Bool
  bbErrorKey : Bool
  ghErrorsBad : Bool
  deriving DecidableEq, Repr

/-- The module-level `api_check`: `.ok true` models returning `None`
(accepted status), `.ok false` models returning the `msg` string for the
caller to enrich.  `[]`/`fun _ => none` model the `None` defaults. -/
def api_check (reply : Reply) (expected : List Nat)
    (raises : Nat → Option Err) : Except Err Bool :=
  let expected := if expected = [] then [200] else expected
  if reply.status ∈ expected then .ok true
  else
    match raises reply.status with
    | some e => .error e
    | none => if reply.hasContent then .ok false else .error .remoteError

/-- Embeds `Bitbucket.api_check`.  After the generic check returns a message, the
reply content is examined; every well-formed path ends in `RemoteError`,
while a missing `Content-Type` header is a `TypeError`, an undecodable body
a `ValueError` and a JSON body without `error` key a `KeyError`. -/
def Bitbucket.api_check (reply : Reply) (expected : List Nat)
    (raises : Nat → Option Err) : Except Err Unit :=
  match Ripio.api_check reply expected raises with
  | .error e => .error e
  | .ok true => .ok ()
  | .ok false =>
    if ¬ reply.hasContentTypeHeader then .error .typeError
    else if ¬ reply.ctJson then .error .remoteError
    else if ¬ reply.jsonParses then .error .valueError
    else if ¬ reply.bbErrorKey then .error .keyError
    else .error .remoteError

/-- Embeds `Github.api_check`: installs `403 → RateLimitExceeded` over the caller's
`raises` table, then behaves like the generic check; a returned message is
enriched from the JSON body and raised as `RemoteError`. -/
def Github.api_check (reply : Reply) (expected : List Nat)
    (raises : Nat → Option Err) : Except Err Unit :=
  let raises' : Nat → Option Err :=
    fun code => if code = 403 then some .rateLimitExceeded else raises code
  match Ripio.api_check reply expected raises' with
  | .error e => .error e
  | .ok true => .ok ()
  | .ok false =>
    if ¬ reply.jsonParses then .error .valueError
    else if reply.ghErrorsBad then .error .indexError
    else .error .remoteError

/-- Embeds `BitbucketRepo.reply_check`: adds `403 → AccessDenied(ref)` and
`404 → RepositoryNotFound(ref)` on top of the caller's table. -/
def BitbucketRepo.reply_check (ref : RepoRef) (reply : Reply)
    (expected : List Nat) (raises : Nat → Option Err) : Except Err Unit :=
  Bitbucket.api_check reply expected
    (fun code =>
      if code = 403 then some (.accessDenied ref.global_name)
      else if code = 404 then some (.repositoryNotFound ref.global_name)
      else raises code)

/-- Embeds `GithubRepo.reply_check`: adds `401 → AccessDenied(ref)` and
`404 → RepositoryNotFound(ref)` on top of the caller's table. -/
def GithubRepo.reply_check (ref : RepoRef) (reply : Reply)
    (expected : List Nat) (raises : Nat → Option Err) : Except Err Unit :=
  Github.api_check reply expected
    (fun code =>
      if code = 401 then some (.accessDenied ref.global_name)
      else if code = 404 then some (.repositoryNotFound ref.global_name)
      else raises code)

/-- One site's slice of the configuration object consumed by `Completion`:
`get_credentials(site)` and `get_workspaces(site)` (the latter defaults to
the empty list). -/
structure SiteConfig where
  credentials : Option Credentials
  workspaces : List Str
  deriving DecidableEq, Repr

/-- The configuration collaborator, one slice per known site. -/
structure Config where
  bitbucket : SiteConfig
  github : SiteConfig
  deriving DecidableEq, Repr

/-- A candidate workspace as built by `Completion.list_workspaces`: the
site tag of the `BitbucketWorkspace`/`GithubWorkspace` class, the parsed
`WorkspaceName` and the credentials the object was built with. -/
structure Ws where
  site : Str
  name : WorkspaceName
  credentials : Option Credentials
  deriving DecidableEq, Repr

/-- Embeds `ws.make_repo(name)`: constructs the repo whose reference is
`RepoRef.from_parts(self.name.workspace, reponame, site)`; construction
errors propagate. -/
def Ws.make_repo (w : Ws) (reponame : Str) : Except Err RepoRef :=
  RepoRef.from_parts w.name.workspace reponame (some w.site)

/-- The loop `for name in config.get_workspaces(site)` of
`Completion.list_workspaces`: each configured name becomes a workspace
object constructed with the site's credentials, in configuration order. -/
def ws_of_names (site : Str) (cred : Option Credentials) :
    List Str → Except Err (List Ws)
  | [] => .ok []
  | n :: ns =>
    match WorkspaceName.make n (some site) with
    | .error e => .error e
    | .ok wn =>
      match ws_of_names site cred ns with
      | .error e => .error e
      | .ok ws => .ok (⟨site, wn, cred⟩ :: ws)

/-- One site's contribution to `Completion.list_workspaces`: the
credentials' username first (when credentials exist), then every configured
workspace name in order.  Workspace-name parsing errors propagate, as the
`try` blocks in the code only catch `AttributeError`. -/
def site_workspaces (site : Str) (sc : SiteConfig) : Except Err (List Ws) :=
  let first : Except Err (List Ws) :=
    match sc.credentials with
    | none => .ok []
    | some c =>
      match WorkspaceName.make c.username (some site) with
      | .error e => .error e
      | .ok wn => .ok [⟨site, wn, some c⟩]
  match first with
  | .error e => .error e
  | .ok fs =>
    match ws_of_names site sc.credentials sc.workspaces with
    | .error e => .error e
    | .ok rs => .ok (fs ++ rs)

/-- Embeds `Completion.list_workspaces`: sites are visited in the fixed dictionary
order bitbucket, then github. -/
def list_workspaces (config : Config) : Except Err (List Ws) :=
  match site_workspaces ((r"bitbucket").toList) config.bitbucket with
  | .error e => .error e
  | .ok b =>
    match site_workspaces ((r"github").toList) config.github with
    | .error e => .error e
    | .ok g => .ok (b ++ g)

/-- Outcome of `repo.checked_exists()` for one candidate repository:
`found` models a `True` return, `notFound` a `False` return and `raised e`
an exception escaping the call (`AccessDenied`, `RateLimitExceeded`,
`RemoteError`, `NetworkError`, ...). -/
inductive ProbeResult where
  | found
  | notFound
  | raised (e : Err)
  deriving DecidableEq, Repr

/-- The network, as seen by `Completion.complete`: what
`checked_exists()` does for each candidate reference. -/
abbrev Oracle := RepoRef → ProbeResult

/-- The scan loop of `Completion.complete`: candidates in list order; a
`True` check appends to `found`, an `AccessDenied` exception appends to
`denied`, a `False` check is skipped, and any other exception propagates
and aborts the scan. -/
def completeScan (oracle : Oracle) (name : Str) :
    List Ws → Except Err (List Str × List Str)
  | [] => .ok ([], [])
  | w :: rest =>
    match w.make_repo name with
    | .error e => .error e
    | .ok ref =>
      match oracle ref with
      | .found =>
        match completeScan oracle name rest with
        | .error e => .error e
        | .ok (f, d) => .ok (ref.global_name :: f, d)
      | .notFound => completeScan oracle name rest
      | .raised (.accessDenied _) =>
        match completeScan oracle name rest with
        | .error e => .error e
        | .ok (f, d) => .ok (f, ref.global_name :: d)
      | .raised e => .error e

/-- Embeds `Completion.complete`: an early `return` (with `found`/`denied` left
empty) when `name` already parses as a `RepoRef`; only `BadRepositoryName`
is caught there, other parsing errors propagate.  A single-colon name is
then treated as a site filter narrowed through `SITE_ABBREVS` (Python only
evaluates the table lookup when the candidate list is non-empty), and the
remaining candidates are scanned. -/
def complete (oracle : Oracle) (name : Str) (workspaces : List Ws) :
    Except Err (List Str × List Str) :=
  match RepoRef.make name none with
  | .ok _ => .ok ([], [])
  | .error (.badRepositoryName _) =>
    let step : Except Err (Str × List Ws) :=
      if countChar ':' name = 1 then
        match splitChar ':' name with
        | [site0, name1] =>
          match workspaces with
          | [] => .ok (name1, [])
          | _ =>
            match siteAbbrevs site0 with
            | none => .error .keyError
            | some s => .ok (name1, workspaces.filter (fun w => w.site = s))
        | _ => .error .valueError
      else .ok (name, workspaces)
    match step with
    | .error e => .error e
    | .ok (name', ws') => completeScan oracle name' ws'
  | .error e => .error e

/-- Embeds `Completion.__init__`: builds the candidate list, raises `ConfigError`
when it is empty, runs `complete` (whose return value is discarded), and
raises `WrongCompletion` when both result lists are empty.  `.ok` carries
the constructed state `(workspaces, found, denied)`. -/
def Completion.init (oracle : Oracle) (name : Str) (config : Config) :
    Except Err (List Ws × List Str × List Str) :=
  match list_workspaces config with
  | .error e => .error e
  | .ok wss =>
    if wss = [] then .error .configError
    else
      match complete oracle name wss with
      | .error e => .error e
      | .ok (found, denied) =>
        if found = [] ∧ denied = [] then .error (.wrongCompletion name)
        else .ok (wss, found, denied)

/-- The `GithubWorkspace.ORG_URL` template instantiated. -/
def ghOrgUrl (org : Str) : Str :=
  (r"https://api.github.com/orgs/").toList ++ org ++ (r"/repos").toList

/-- The `GithubWorkspace.USER_URL` template instantiated. -/
def ghUserUrl (user : Str) : Str :=
  (r"https://api.github.com/users/").toList ++ user ++ (r"/repos").toList

/-- The `GithubWorkspace.OWNER_URL` constant. -/
def ghOwnerUrl : Str := (r"https://api.github.com/user/repos").toList

/-- Python `str.lower()` (ASCII view). -/
def lowerStr (s : Str) : Str := s.map Char.toLower

/-- Embeds `GithubWorkspace.get_user_url`: the authenticated "my repos" endpoint
when the workspace name equals the credentials' username case-insensitively,
the public user endpoint otherwise. -/
def GithubWorkspace.get_user_url (workspace : Str)
    (credentials : Option Credentials) : Str :=
  match credentials with
  | some c =>
    if lowerStr workspace = lowerStr c.username then
      ghOwnerUrl ++ (r"?type=owner").toList
    else ghUserUrl workspace
  | none => ghUserUrl workspace

/-- The listing-URL selection performed by `GithubWorkspace.__init__`: the
organization endpoint is requested unconditionally (through `auth`), and
only a 404 reply switches to `get_user_url`.  The first component records
the URLs requested during construction, the second the resulting
`self.url`. -/
def GithubWorkspace.initUrl (workspace : Str)
    (credentials : Option Credentials) (net : Str → Nat) :
    List Str × Str :=
  let orgUrl := ghOrgUrl workspace
  let req := Auth.auth credentials orgUrl
  let status := net req
  ([req],
    if status = 404 then GithubWorkspace.get_user_url workspace credentials
    else orgUrl)

/-- The state of the clone destination directory, as distinguished by
`git.Repo(dirname)` and `.remote().url`. -/
inductive DirState where
  | absent
  | plainDir
  | gitRepoNoRemote
  | gitRepo (origin : Str)
  deriving DecidableEq, Repr

/-- The reference extracted by `Repo.from_dir` (the constructed repo object
is identified by its reference): a non-git directory raises
`DirectoryIsNotRepository`, a git directory without remote raises
`MissingRemoteOrigin`, otherwise the origin URL is parsed with
`RepoRef.from_origin`. -/
def from_dir_ref : DirState → Except Err RepoRef
  | .absent => .error .valueError
  | .plainDir => .error .directoryIsNotRepository
  | .gitRepoNoRemote => .error .missingRemoteOrigin
  | .gitRepo origin => RepoRef.from_origin origin

/-- The precondition checks of `_clone` in `src/ripio/cli.py`, everything
before the `repo.clone(...)` call: `repoExists` is the outcome of
`repo.exists()`; `.ok ()` means the function reaches the clone invocation.
-/
def cliClone (repoExists : Bool) (ref : RepoRef) (destdir : DirState) :
    Except Err Unit :=
  if ¬ repoExists then .error (.repositoryNotFound ref.global_name)
  else
    match destdir with
    | .absent => .ok ()
    | d =>
      match from_dir_ref d with
      | .error e => .error e
      | .ok localRef =>
        if refEq localRef ref then .error .repositoryAlreadyCloned
        else .error (.unrelatedRepository localRef.global_name)

/-- Holds (as `true`) when a string is empty or starts with a netloc delimiter: the
shape of the part following the netloc in a parsed URL. -/
def headNetloc : Str → Bool
  | [] => true
  | x :: _ => netlocEnd x

/-- A string free of the characters that steer reference parsing: such
strings are ordinary workspace/repository names. -/
def plainStr (s : Str) : Prop := ':' ∉ s ∧ '/' ∉ s ∧ '@' ∉ s

instance (s : Str) : Decidable (plainStr s) := by
  unfold plainStr
  infer_instance

/-- The canonical site strings. -/
abbrev bbL : Str := (r"bitbucket").toList

abbrev ghL : Str := (r"github").toList

/-- Whether the optional credentials carry an ordinary username. -/
def credPlain : Option Credentials → Prop
  | none => True
  | some c => plainStr c.username

instance : (o : Option Credentials) → Decidable (credPlain o)
  | none => isTrue trivial
  | some c => inferInstanceAs (Decidable (plainStr c.username))

/-- Every name the configuration feeds into workspace construction is an
ordinary name. -/
def plainConfig (cfg : Config) : Prop :=
  credPlain cfg.bitbucket.credentials ∧
  (∀ n ∈ cfg.bitbucket.workspaces, plainStr n) ∧
  credPlain cfg.github.credentials ∧
  (∀ n ∈ cfg.github.workspaces, plainStr n)

instance (cfg : Config) : Decidable (plainConfig cfg) := by
  unfold plainConfig
  infer_instance

/-- The candidate list one site is expected to contribute: the credentials'
username first (when configured), then the configured workspace names in
configuration order. -/
def siteCands (site : Str) (sc : SiteConfig) : List Ws :=
  (match sc.credentials with
   | none => []
   | some c => [⟨site, ⟨site, c.username⟩, some c⟩])
  ++ sc.workspaces.map (fun n => ⟨site, ⟨site, n⟩, sc.credentials⟩)

/-- The candidate list the whole configuration is expected to produce,
site-major: bitbucket first, then github. -/
def allCands (cfg : Config) : List Ws :=
  siteCands bbL cfg.bitbucket ++ siteCands ghL cfg.github

/-- The workspace objects `list_workspaces` builds: ordinary workspace
names on one of the two known sites. -/
def scanSafeWs (w : Ws) : Prop :=
  plainStr w.name.workspace ∧ siteAbbrevs w.site = some w.site

instance (w : Ws) : Decidable (scanSafeWs w) := by
  unfold scanSafeWs
  infer_instance

theorem splitChar_ne_nil (c : Char) (s : Str) : splitChar c s ≠ [] := by
  induction s with
  | nil => simp [splitChar]
  | cons x xs ih =>
    simp only [splitChar]
    cases h : splitChar c xs with
    | nil => simp
    | cons h t =>
      by_cases hx : x = c <;> simp [hx]

theorem splitChar_of_not_mem {c : Char} {s : Str} (h : c ∉ s) :
    splitChar c s = [s] := by
  induction s with
  | nil => rfl
  | cons x xs ih =>
    simp only [List.mem_cons, not_or] at h
    rw [splitChar, ih h.2]
    simp [Ne.symm h.1]

theorem splitChar_append {c : Char} {a b : Str} (h : c ∉ a) :
    splitChar c (a ++ c :: b) = a :: splitChar c b := by
  induction a with
  | nil =>
    simp only [List.nil_append, splitChar]
    cases hb : splitChar c b with
    | nil => exact absurd hb (splitChar_ne_nil c b)
    | cons h t => simp
  | cons y ys ih =>
    simp only [List.mem_cons, not_or] at h
    rw [List.cons_append, splitChar, ih h.2]
    simp [Ne.symm h.1]

theorem splitChar_length (c : Char) (s : Str) :
    (splitChar c s).length = countChar c s + 1 := by
  induction s with
  | nil => simp [splitChar, countChar]
  | cons x xs ih =>
    simp only [splitChar]
    cases h : splitChar c xs with
    | nil => exact absurd h (splitChar_ne_nil c xs)
    | cons hh tt =>
      rw [h] at ih
      by_cases hx : x = c
      · subst hx
        simp [countChar, List.count_cons] at ih ⊢
        omega
      · simp [hx, countChar, List.count_cons, Ne.symm hx] at ih ⊢
        omega

theorem hasPre_iff {p s : Str} : hasPre p s = true ↔ ∃ t, s = p ++ t := by
  induction p generalizing s with
  | nil => simp [hasPre]
  | cons a ps ih =>
    cases s with
    | nil => simp [hasPre]
    | cons b ss =>
      simp only [hasPre, Bool.and_eq_true, decide_eq_true_eq, ih,
        List.cons_append, List.cons.injEq]
      constructor
      · rintro ⟨rfl, t, rfl⟩
        exact ⟨t, rfl, rfl⟩
      · rintro ⟨t, rfl, rfl⟩
        exact ⟨rfl, t, rfl⟩

theorem not_hasPre_of_mem {p s : Str} {c : Char} (hc : c ∈ p) (hs : c ∉ s) :
    hasPre p s = false := by
  cases h : hasPre p s with
  | false => rfl
  | true =>
    obtain ⟨t, rfl⟩ := hasPre_iff.mp h
    exact absurd (List.mem_append_left t hc) hs

theorem countChar_of_not_mem {c : Char} {s : Str} (h : c ∉ s) :
    countChar c s = 0 :=
  List.count_eq_zero.mpr h

theorem splitNetloc_append {a b : Str} (ha : ∀ x ∈ a, netlocEnd x = false)
    (hb : headNetloc b = true) : splitNetloc (a ++ b) = (a, b) := by
  induction a with
  | nil =>
    cases b with
    | nil => rfl
    | cons x xs =>
      simp only [headNetloc] at hb
      simp [splitNetloc, hb]
  | cons y ys ih =>
    have hy := ha y (List.mem_cons_self y ys)
    rw [List.cons_append, splitNetloc, hy]
    simp only [Bool.false_eq_true, if_false]
    rw [ih (fun x hx => ha x (List.mem_cons_of_mem y hx))]

theorem not_hasPre_https {s : Str} (h : ':' ∉ s) :
    hasPre ((r"https://").toList) s = false :=
  not_hasPre_of_mem (by decide) h

theorem not_hasPre_ssh {s : Str} (h : ':' ∉ s) :
    hasPre ((r"ssh://").toList) s = false :=
  not_hasPre_of_mem (by decide) h

theorem not_hasPre_gitat {s : Str} (h : '@' ∉ s) :
    hasPre ((r"git@").toList) s = false :=
  not_hasPre_of_mem (by decide) h

theorem wsname_make_plain {n site : Str} (hc : ':' ∉ n) (hs : '/' ∉ n)
    (hsite : siteAbbrevs site = some site) :
    WorkspaceName.make n (some site) = .ok ⟨site, n⟩ := by
  unfold WorkspaceName.make
  rw [countChar_of_not_mem hc, splitChar_of_not_mem hc]
  simp [hs, hsite]

theorem not_mem_parts {c d : Char} {w n : Str} (hw : c ∉ w) (hn : c ∉ n)
    (hd : c ≠ d) : c ∉ w ++ d :: n := by
  simp [List.mem_append, List.mem_cons, hw, hn, hd]

theorem repoRef_make_bare {n : Str} (hp : plainStr n) :
    RepoRef.make n none = .error (.badRepositoryName n) := by
  obtain ⟨hc, hs, ha⟩ := hp
  unfold RepoRef.make
  rw [not_hasPre_https hc, not_hasPre_gitat ha, not_hasPre_ssh hc]
  simp [countChar_of_not_mem hs]

theorem repoRef_from_parts_plain {w n site : Str} (hw : plainStr w)
    (hn : plainStr n) (hsite : siteAbbrevs site = some site) :
    RepoRef.from_parts w n (some site) = .ok ⟨⟨site, w⟩, n⟩ := by
  obtain ⟨hwc, hws, hwa⟩ := hw
  obtain ⟨hnc, hns, hna⟩ := hn
  have hc : ':' ∉ w ++ '/' :: n := not_mem_parts hwc hnc (by decide)
  have ha : '@' ∉ w ++ '/' :: n := not_mem_parts hwa hna (by decide)
  have hcount : countChar '/' (w ++ '/' :: n) = 1 := by
    unfold countChar
    rw [List.count_append, List.count_cons_self, List.count_eq_zero.mpr hws,
      List.count_eq_zero.mpr hns]
  simp only [RepoRef.from_parts, RepoRef.make, not_hasPre_https hc,
    not_hasPre_gitat ha, not_hasPre_ssh hc, hcount, splitChar_append hws,
    splitChar_of_not_mem hns, wsname_make_plain hwc hws hsite,
    Bool.false_eq_true, or_self, if_false]
  simp

theorem ws_of_names_plain {site : Str} (cred : Option Credentials)
    {l : List Str} (hl : ∀ n ∈ l, plainStr n)
    (hsite : siteAbbrevs site = some site) :
    ws_of_names site cred l = .ok (l.map fun n => ⟨site, ⟨site, n⟩, cred⟩) := by
  induction l with
  | nil => rfl
  | cons n ns ih =>
    have hn := hl n (List.mem_cons_self n ns)
    simp only [ws_of_names, wsname_make_plain hn.1 hn.2.1 hsite,
      ih (fun m hm => hl m (List.mem_cons_of_mem n hm)), List.map_cons]

theorem site_workspaces_plain {site : Str} {sc : SiteConfig}
    (hcred : credPlain sc.credentials) (hl : ∀ n ∈ sc.workspaces, plainStr n)
    (hsite : siteAbbrevs site = some site) :
    site_workspaces site sc = .ok (siteCands site sc) := by
  cases hc : sc.credentials with
  | none =>
    simp only [site_workspaces, hc, ws_of_names_plain none hl hsite, siteCands]
  | some c =>
    rw [hc] at hcred
    have hu : plainStr c.username := hcred
    simp only [site_workspaces, hc, wsname_make_plain hu.1 hu.2.1 hsite,
      ws_of_names_plain (some c) hl hsite, siteCands]

theorem list_workspaces_plain {cfg : Config} (h : plainConfig cfg) :
    list_workspaces cfg = .ok (allCands cfg) := by
  obtain ⟨h1, h2, h3, h4⟩ := h
  simp only [list_workspaces,
    @site_workspaces_plain bbL cfg.bitbucket h1 h2 (by decide),
    @site_workspaces_plain ghL cfg.github h3 h4 (by decide), allCands]

theorem completeScan_all_found (oracle : Oracle) {name : Str}
    (hn : plainStr name) {l : List Ws} (hw : ∀ w ∈ l, scanSafeWs w)
    (hf : ∀ ref, oracle ref = .found) :
    completeScan oracle name l =
      .ok (l.map (fun w => w.site ++ ':' :: w.name.workspace ++ '/' :: name),
        []) := by
  induction l with
  | nil => rfl
  | cons w ws ih =>
    have hww := hw w (List.mem_cons_self w ws)
    simp only [completeScan, Ws.make_repo,
      repoRef_from_parts_plain hww.1 hn hww.2, hf,
      ih (fun x hx => hw x (List.mem_cons_of_mem w hx)), List.map_cons,
      RepoRef.global_name, RepoRef.full_name, RepoRef.site,
      List.cons_append, List.append_assoc]

theorem complete_bare_all_found (oracle : Oracle) {name : Str}
    (hn : plainStr name) {l : List Ws} (hw : ∀ w ∈ l, scanSafeWs w)
    (hf : ∀ ref, oracle ref = .found) :
    complete oracle name l =
      .ok (l.map (fun w => w.site ++ ':' :: w.name.workspace ++ '/' :: name),
        []) := by
  have hscan := completeScan_all_found oracle hn hw hf
  simp [complete, repoRef_make_bare hn, countChar_of_not_mem hn.1, hscan]

theorem repoRef_make_full {site o g : Str} (hs1 : '/' ∉ site)
    (hs2 : ':' ∉ site) (habbr : siteAbbrevs site = some site)
    (hp1 : hasPre ((r"https://").toList) (site ++ ':' :: o ++ '/' :: g) = false)
    (hp2 : hasPre ((r"git@").toList) (site ++ ':' :: o ++ '/' :: g) = false)
    (hp3 : hasPre ((r"ssh://").toList) (site ++ ':' :: o ++ '/' :: g) = false)
    (ho2 : ':' ∉ o) (ho3 : '/' ∉ o) (hg3 : '/' ∉ g) :
    RepoRef.make (site ++ ':' :: o ++ '/' :: g) none = .ok ⟨⟨site, o⟩, g⟩ := by
  have hA : '/' ∉ site ++ ':' :: o := not_mem_parts hs1 ho3 (by decide)
  have hcount : countChar '/' (site ++ ':' :: o ++ '/' :: g) = 1 := by
    unfold countChar
    rw [List.count_append, List.count_cons_self, List.count_eq_zero.mpr hA,
      List.count_eq_zero.mpr hg3]
  have hwn : WorkspaceName.make (site ++ ':' :: o) none = .ok ⟨site, o⟩ := by
    have hcc : countChar ':' (site ++ ':' :: o) = 1 := by
      unfold countChar
      rw [List.count_append, List.count_cons_self, List.count_eq_zero.mpr hs2,
        List.count_eq_zero.mpr ho2]
    simp only [WorkspaceName.make, hcc, splitChar_append hs2,
      splitChar_of_not_mem ho2, habbr]
    simp [hA]
  have hsplit : splitChar '/' (site ++ ':' :: o ++ '/' :: g)
      = [site ++ ':' :: o, g] := by
    rw [splitChar_append hA, splitChar_of_not_mem hg3]
  have heq : site ++ ':' :: o ++ '/' :: g = site ++ ':' :: (o ++ '/' :: g) := by
    simp
  rw [heq] at hp1 hp2 hp3 hcount hsplit ⊢
  simp at hp1 hp2 hp3
  simp [RepoRef.make, hp1, hp2, hp3, hcount, hsplit, hwn]

theorem credentials_make_len_ne_two {s : Str}
    (h : (splitChar ':' s).length ≠ 2) :
    Credentials.make s = .error .valueError := by
  unfold Credentials.make
  rcases hq : splitChar ':' s with _ | ⟨a, _ | ⟨b, _ | ⟨c, t⟩⟩⟩
  · rfl
  · rfl
  · rw [hq] at h
    simp at h
  · rfl

/-- Claim C1. The claim says `Completion(name, config)` with a full
`site:owner/slug` name and a non-empty candidate list succeeds and yields
that reference without raising `WrongCompletion`.  The code contradicts it:
`Completion.complete` does return `[name]` early without probing, but
`Completion.__init__` discards that return value, finds `found` and
`denied` both empty, and raises `WrongCompletion` — even under a network
where every candidate would exist. -/
theorem c1_full_reference_completion_raises_wrong_completion :
    RepoRef.make ((r"github:owner/slug").toList) none
      = .ok ⟨⟨ghL, (r"owner").toList⟩, (r"slug").toList⟩
  ∧ Completion.init (fun _ => .found) ((r"github:owner/slug").toList)
      ⟨⟨none, [(r"w1").toList]⟩, ⟨none, []⟩⟩
      = .error (.wrongCompletion ((r"github:owner/slug").toList)) :=
  ⟨by decide, by decide⟩

/-- Claim C2. Completion construction raises `ConfigError` on an empty
candidate list; raises `WrongCompletion` when candidates exist but the scan
records no found and no denied entry; and returns normally (empty `found`,
non-empty `denied`) when the scan records at least one denial and no find.
-/
theorem c2_completion_error_cases (oracle : Oracle) (name : Str)
    (cfg : Config) :
    (list_workspaces cfg = .ok [] →
      Completion.init oracle name cfg = .error .configError)
  ∧ (∀ ws, list_workspaces cfg = .ok ws → ws ≠ [] →
      complete oracle name ws = .ok ([], []) →
      Completion.init oracle name cfg = .error (.wrongCompletion name))
  ∧ (∀ ws denied, list_workspaces cfg = .ok ws → ws ≠ [] →
      complete oracle name ws = .ok ([], denied) → denied ≠ [] →
      Completion.init oracle name cfg = .ok (ws, [], denied)) := by
  refine ⟨fun h => ?_, fun ws h hne hc => ?_, fun ws denied h hne hc hd => ?_⟩
  · simp [Completion.init, h]
  · simp [Completion.init, h, hne, hc]
  · simp [Completion.init, h, hne, hc, hd]

theorem c2_completion_error_cases_witness :
    Completion.init (fun _ => .notFound) ((r"repo0").toList)
      ⟨⟨none, []⟩, ⟨none, []⟩⟩ = .error .configError
  ∧ Completion.init (fun _ => .notFound) ((r"repo0").toList)
      ⟨⟨none, [(r"w1").toList]⟩, ⟨none, []⟩⟩
      = .error (.wrongCompletion ((r"repo0").toList))
  ∧ Completion.init (fun r => .raised (.accessDenied r.global_name))
      ((r"repo0").toList) ⟨⟨none, [(r"w1").toList]⟩, ⟨none, []⟩⟩
      = .ok ([⟨bbL, ⟨bbL, (r"w1").toList⟩, none⟩], [],
        [(r"bitbucket:w1/repo0").toList]) :=
  ⟨(c2_completion_error_cases (fun _ => .notFound) ((r"repo0").toList)
      ⟨⟨none, []⟩, ⟨none, []⟩⟩).1 (by decide),
   (c2_completion_error_cases (fun _ => .notFound) ((r"repo0").toList)
      ⟨⟨none, [(r"w1").toList]⟩, ⟨none, []⟩⟩).2.1
      [⟨bbL, ⟨bbL, (r"w1").toList⟩, none⟩] (by decide) (by decide) (by decide),
   (c2_completion_error_cases (fun r => .raised (.accessDenied r.global_name))
      ((r"repo0").toList) ⟨⟨none, [(r"w1").toList]⟩, ⟨none, []⟩⟩).2.2
      [⟨bbL, ⟨bbL, (r"w1").toList⟩, none⟩] [(r"bitbucket:w1/repo0").toList]
      (by decide) (by decide) (by decide) (by decide)⟩

/-- Claim C3. The claim says all supported origin-URL forms of one logical
repository parse equal, the trailing `.git` of an https URL being
stripped.  The code contradicts it: the https branch's regex
`(.+)(?:\.git)?\Z` is greedy, so the `.git` suffix stays in the slug and
the https form differs from the `git@` form of the same repository. -/
theorem c3_https_git_suffix_not_stripped :
    (RepoRef.from_origin
        ((r"https://github.com/davidvilla/ripio.git").toList)).map
        RepoRef.global_name = .ok ((r"github:davidvilla/ripio.git").toList)
  ∧ (RepoRef.from_origin
        ((r"git@github.com:davidvilla/ripio.git").toList)).map
        RepoRef.global_name = .ok ((r"github:davidvilla/ripio").toList)
  ∧ RepoRef.from_origin ((r"https://github.com/davidvilla/ripio.git").toList)
      ≠ RepoRef.from_origin
        ((r"git@github.com:davidvilla/ripio.git").toList) :=
  ⟨by decide, by decide, by decide⟩

/-- Claim C4 counterexample. Cloning onto an existing plain (non-git)
directory raises `DirectoryIsNotRepository`, not the claimed
`DirectoryAlreadyExists`. -/
theorem c4_plain_directory_error_counterexample :
    cliClone true ⟨⟨ghL, (r"owner").toList⟩, (r"slug").toList⟩ .plainDir
      = .error .directoryIsNotRepository
  ∧ cliClone true ⟨⟨ghL, (r"owner").toList⟩, (r"slug").toList⟩ .plainDir
      ≠ .error .directoryAlreadyExists :=
  ⟨by decide, by decide⟩

/-- Claim C4, amended. The `_clone` precondition checks fail before the
clone call with the error kind determined by the destination directory:
an existing plain (non-git) directory gives `DirectoryIsNotRepository`, an
existing working copy whose origin resolves to the same reference gives
`RepositoryAlreadyCloned`, and a working copy of a different reference
gives `UnrelatedRepository`. -/
theorem c4_clone_destination_errors (ref localRef : RepoRef) (origin : Str)
    (h : RepoRef.from_origin origin = .ok localRef) :
    cliClone true ref .plainDir = .error .directoryIsNotRepository
  ∧ (refEq localRef ref = true →
      cliClone true ref (.gitRepo origin) = .error .repositoryAlreadyCloned)
  ∧ (refEq localRef ref = false →
      cliClone true ref (.gitRepo origin)
        = .error (.unrelatedRepository localRef.global_name)) := by
  refine ⟨rfl, fun he => ?_, fun he => ?_⟩ <;>
    simp [cliClone, from_dir_ref, h, he]

theorem c4_clone_destination_errors_witness :
    cliClone true ⟨⟨ghL, (r"owner").toList⟩, (r"slug").toList⟩ .plainDir
      = .error .directoryIsNotRepository
  ∧ cliClone true ⟨⟨ghL, (r"owner").toList⟩, (r"slug").toList⟩
      (.gitRepo ((r"git@github.com:owner/slug.git").toList))
      = .error .repositoryAlreadyCloned
  ∧ cliClone true ⟨⟨ghL, (r"other").toList⟩, (r"slug").toList⟩
      (.gitRepo ((r"git@github.com:owner/slug.git").toList))
      = .error (.unrelatedRepository ((r"github:owner/slug").toList)) :=
  ⟨(c4_clone_destination_errors ⟨⟨ghL, (r"owner").toList⟩, (r"slug").toList⟩
      ⟨⟨ghL, (r"owner").toList⟩, (r"slug").toList⟩
      ((r"git@github.com:owner/slug.git").toList) (by decide)).1,
   (c4_clone_destination_errors ⟨⟨ghL, (r"owner").toList⟩, (r"slug").toList⟩
      ⟨⟨ghL, (r"owner").toList⟩, (r"slug").toList⟩
      ((r"git@github.com:owner/slug.git").toList) (by decide)).2.1 (by decide),
   (c4_clone_destination_errors ⟨⟨ghL, (r"other").toList⟩, (r"slug").toList⟩
      ⟨⟨ghL, (r"owner").toList⟩, (r"slug").toList⟩
      ((r"git@github.com:owner/slug.git").toList) (by decide)).2.2
      (by decide)⟩

/-- Claim C8 counterexample. The claim says any credentials string with at
least one colon splits on the first colon.  The code splits on every
colon and the tuple unpacking fails, so `Credentials("a:b:c")` raises
`ValueError` instead of producing username `a`, password `b:c`. -/
theorem c8_multi_colon_credentials_counterexample :
    1 ≤ countChar ':' ((r"a:b:c").toList)
  ∧ Credentials.make ((r"a:b:c").toList) = .error .valueError :=
  ⟨by decide, by decide⟩

/-- Claim C8, amended. The `Credentials` construction succeeds exactly for
strings with a single colon, splitting there: for colon-free `u` and `p`
the string `u:p` yields username `u` and password `p`, while any string
whose colon count differs from one fails with `ValueError`. -/
theorem c8_credentials_single_colon_split (u p s : Str) (hu : ':' ∉ u)
    (hp : ':' ∉ p) (hs : countChar ':' s ≠ 1) :
    Credentials.make (u ++ ':' :: p) = .ok ⟨u, p⟩
  ∧ Credentials.make s = .error .valueError := by
  constructor
  · simp only [Credentials.make, splitChar_append hu, splitChar_of_not_mem hp]
  · refine credentials_make_len_ne_two ?_
    rw [splitChar_length]
    omega

theorem c8_credentials_single_colon_split_witness :
    Credentials.make ((r"john.doe:secret").toList)
      = .ok ⟨(r"john.doe").toList, (r"secret").toList⟩
  ∧ Credentials.make ((r"a:b:c").toList) = .error .valueError := by
  have h := c8_credentials_single_colon_split ((r"john.doe").toList)
    ((r"secret").toList) ((r"a:b:c").toList) (by decide) (by decide)
    (by decide)
  exact h

/-- Claim C9. For every canonical reference string `site:owner/slug` with a
canonical site name and slash/colon-free non-empty owner and slug,
`RepoRef` construction succeeds and `global_name` reproduces the input
exactly. -/
theorem c9_reference_round_trip (site o g : Str)
    (hsite : site = bbL ∨ site = ghL) (ho1 : o ≠ []) (ho2 : ':' ∉ o)
    (ho3 : '/' ∉ o) (hg1 : g ≠ []) (hg2 : ':' ∉ g) (hg3 : '/' ∉ g) :
    (RepoRef.make (site ++ ':' :: o ++ '/' :: g) none).map RepoRef.global_name
      = .ok (site ++ ':' :: o ++ '/' :: g) := by
  have hmk : RepoRef.make (site ++ ':' :: o ++ '/' :: g) none
      = .ok ⟨⟨site, o⟩, g⟩ := by
    rcases hsite with rfl | rfl
    · exact repoRef_make_full (by decide) (by decide) (by decide) rfl rfl rfl
        ho2 ho3 hg3
    · exact repoRef_make_full (by decide) (by decide) (by decide) rfl rfl rfl
        ho2 ho3 hg3
  rw [hmk]
  simp [Except.map, RepoRef.global_name, RepoRef.full_name, RepoRef.site]

theorem siteCands_scanSafe {site : Str} {sc : SiteConfig}
    (hcred : credPlain sc.credentials) (hl : ∀ n ∈ sc.workspaces, plainStr n)
    (habbr : siteAbbrevs site = some site) :
    ∀ w ∈ siteCands site sc, scanSafeWs w := by
  intro w hw
  unfold siteCands at hw
  rcases List.mem_append.mp hw with h | h
  · cases hc : sc.credentials with
    | none =>
      rw [hc] at h
      simp at h
    | some c =>
      rw [hc] at h
      simp at h
      subst h
      rw [hc] at hcred
      exact ⟨hcred, habbr⟩
  · obtain ⟨n, hn, rfl⟩ := List.mem_map.mp h
    exact ⟨hl n hn, habbr⟩

theorem allCands_scanSafe {cfg : Config} (h : plainConfig cfg) :
    ∀ w ∈ allCands cfg, scanSafeWs w := by
  obtain ⟨h1, h2, h3, h4⟩ := h
  intro w hw
  rcases List.mem_append.mp hw with hb | hg
  · exact @siteCands_scanSafe bbL cfg.bitbucket h1 h2 (by decide) w hb
  · exact @siteCands_scanSafe ghL cfg.github h3 h4 (by decide) w hg

/-- Claim C5. The candidate workspace list is built site-major — all
bitbucket candidates, then all github candidates; within a site the
credentials' username (when credentials are configured) comes first,
followed by the configured workspace names in configuration order — and
the `found` list of a scan in which every candidate matches is exactly the
candidate list's references in candidate order. -/
theorem c5_completion_candidate_order (cfg : Config) (name : Str)
    (oracle : Oracle) (hcfg : plainConfig cfg) (hname : plainStr name)
    (hne : allCands cfg ≠ []) (hf : ∀ ref, oracle ref = .found) :
    list_workspaces cfg = .ok (allCands cfg)
  ∧ Completion.init oracle name cfg
      = .ok (allCands cfg,
        (allCands cfg).map
          (fun w => w.site ++ ':' :: w.name.workspace ++ '/' :: name),
        []) := by
  have hlw := list_workspaces_plain hcfg
  have hsafe := allCands_scanSafe hcfg
  have hcomp := complete_bare_all_found oracle hname hsafe hf
  refine ⟨hlw, ?_⟩
  have hmapne : (allCands cfg).map
      (fun w => w.site ++ ':' :: w.name.workspace ++ '/' :: name) ≠ [] := by
    intro hm
    exact hne (List.map_eq_nil_iff.mp hm)
  simp [Completion.init, hlw, hcomp, hne, hmapne]

theorem c5_completion_candidate_order_witness :
    list_workspaces
        ⟨⟨some ⟨(r"u1").toList, (r"p").toList⟩, [(r"team1").toList]⟩,
          ⟨none, [(r"org1").toList]⟩⟩
      = .ok (allCands
        ⟨⟨some ⟨(r"u1").toList, (r"p").toList⟩, [(r"team1").toList]⟩,
          ⟨none, [(r"org1").toList]⟩⟩)
  ∧ Completion.init (fun _ => .found) ((r"ripio").toList)
      ⟨⟨some ⟨(r"u1").toList, (r"p").toList⟩, [(r"team1").toList]⟩,
        ⟨none, [(r"org1").toList]⟩⟩
      = .ok (allCands
          ⟨⟨some ⟨(r"u1").toList, (r"p").toList⟩, [(r"team1").toList]⟩,
            ⟨none, [(r"org1").toList]⟩⟩,
        (allCands
          ⟨⟨some ⟨(r"u1").toList, (r"p").toList⟩, [(r"team1").toList]⟩,
            ⟨none, [(r"org1").toList]⟩⟩).map
          (fun w => w.site ++ ':' :: w.name.workspace ++ '/'
            :: (r"ripio").toList),
        []) :=
  c5_completion_candidate_order
    ⟨⟨some ⟨(r"u1").toList, (r"p").toList⟩, [(r"team1").toList]⟩,
      ⟨none, [(r"org1").toList]⟩⟩
    ((r"ripio").toList) (fun _ => .found) (by decide) (by decide) (by decide)
    (fun _ => rfl)

/-- Claim C6. HTTP status classification of a repository request: Bitbucket
maps 403 to `AccessDenied` and 404 to `RepositoryNotFound`; GitHub maps
401 to `AccessDenied`, 403 to `RateLimitExceeded` and 404 to
`RepositoryNotFound`; an accepted 200 passes, and any other status becomes
`RemoteError` (for a reply whose error body is well-formed for its site).
-/
theorem c6_status_classification (ref : RepoRef) (reply : Reply)
    (hwf : reply.hasContentTypeHeader = true ∧ reply.ctJson = true ∧
      reply.jsonParses = true ∧ reply.bbErrorKey = true ∧
      reply.ghErrorsBad = false) :
    (reply.status = 403 →
      BitbucketRepo.reply_check ref reply [] (fun _ => none)
        = .error (.accessDenied ref.global_name))
  ∧ (reply.status = 404 →
      BitbucketRepo.reply_check ref reply [] (fun _ => none)
        = .error (.repositoryNotFound ref.global_name))
  ∧ (reply.status = 200 →
      BitbucketRepo.reply_check ref reply [] (fun _ => none) = .ok ())
  ∧ (reply.status ≠ 200 → reply.status ≠ 403 → reply.status ≠ 404 →
      BitbucketRepo.reply_check ref reply [] (fun _ => none)
        = .error .remoteError)
  ∧ (reply.status = 401 →
      GithubRepo.reply_check ref reply [] (fun _ => none)
        = .error (.accessDenied ref.global_name))
  ∧ (reply.status = 403 →
      GithubRepo.reply_check ref reply [] (fun _ => none)
        = .error .rateLimitExceeded)
  ∧ (reply.status = 404 →
      GithubRepo.reply_check ref reply [] (fun _ => none)
        = .error (.repositoryNotFound ref.global_name))
  ∧ (reply.status = 200 →
      GithubRepo.reply_check ref reply [] (fun _ => none) = .ok ())
  ∧ (reply.status ≠ 200 → reply.status ≠ 401 → reply.status ≠ 403 →
      reply.status ≠ 404 →
      GithubRepo.reply_check ref reply [] (fun _ => none)
        = .error .remoteError) := by
  obtain ⟨hcth, hjson, hparse, hkey, hgh⟩ := hwf
  obtain ⟨st, hcont, f3, f4, f5, f6, f7, f8⟩ := reply
  simp only at hcth hjson hparse hkey hgh
  subst hcth hjson hparse hkey hgh
  refine ⟨fun h => ?_, fun h => ?_, fun h => ?_, fun h1 h2 h3 => ?_,
    fun h => ?_, fun h => ?_, fun h => ?_, fun h => ?_,
    fun h1 h2 h3 h4 => ?_⟩
  · simp only at h; subst h; rfl
  · simp only at h; subst h; rfl
  · simp only at h; subst h; rfl
  · simp only at h1 h2 h3
    cases hcont <;>
      simp [BitbucketRepo.reply_check, Bitbucket.api_check, api_check,
        h1, h2, h3]
  · simp only at h; subst h; rfl
  · simp only at h; subst h; rfl
  · simp only at h; subst h; rfl
  · simp only at h; subst h; rfl
  · simp only at h1 h2 h3 h4
    cases hcont <;>
      simp [GithubRepo.reply_check, Github.api_check, api_check,
        h1, h2, h3, h4]

theorem c6_status_classification_witness :
    BitbucketRepo.reply_check ⟨⟨bbL, (r"o").toList⟩, (r"s").toList⟩
      ⟨403, true, true, true, false, true, true, false⟩ [] (fun _ => none)
      = .error (.accessDenied
        (RepoRef.global_name ⟨⟨bbL, (r"o").toList⟩, (r"s").toList⟩))
  ∧ BitbucketRepo.reply_check ⟨⟨bbL, (r"o").toList⟩, (r"s").toList⟩
      ⟨500, true, true, true, false, true, true, false⟩ [] (fun _ => none)
      = .error .remoteError
  ∧ GithubRepo.reply_check ⟨⟨bbL, (r"o").toList⟩, (r"s").toList⟩
      ⟨403, true, true, true, false, true, true, false⟩ [] (fun _ => none)
      = .error .rateLimitExceeded
  ∧ GithubRepo.reply_check ⟨⟨bbL, (r"o").toList⟩, (r"s").toList⟩
      ⟨500, true, true, true, false, true, true, false⟩ [] (fun _ => none)
      = .error .remoteError :=
  ⟨(c6_status_classification ⟨⟨bbL, (r"o").toList⟩, (r"s").toList⟩
      ⟨403, true, true, true, false, true, true, false⟩
      (by decide)).1 rfl,
   (c6_status_classification ⟨⟨bbL, (r"o").toList⟩, (r"s").toList⟩
      ⟨500, true, true, true, false, true, true, false⟩
      (by decide)).2.2.2.1 (by decide) (by decide) (by decide),
   (c6_status_classification ⟨⟨bbL, (r"o").toList⟩, (r"s").toList⟩
      ⟨403, true, true, true, false, true, true, false⟩
      (by decide)).2.2.2.2.2.1 rfl,
   (c6_status_classification ⟨⟨bbL, (r"o").toList⟩, (r"s").toList⟩
      ⟨500, true, true, true, false, true, true, false⟩
      (by decide)).2.2.2.2.2.2.2.2 (by decide) (by decide) (by decide)
      (by decide)⟩

/-- Claim C7 counterexample. The claim says that for a workspace name equal
to the credentials' username the adapter uses the `/user/repos` endpoint
directly and skips the organization probe.  The code contradicts it: the
organization endpoint is always probed, and with a non-404 probe reply the
listing URL stays the organization URL even for the own-name case. -/
theorem c7_github_own_workspace_probe_counterexample :
    (GithubWorkspace.initUrl ((r"alice").toList)
        (some ⟨(r"alice").toList, (r"p").toList⟩) (fun _ => 200)).1 ≠ []
  ∧ (GithubWorkspace.initUrl ((r"alice").toList)
        (some ⟨(r"alice").toList, (r"p").toList⟩) (fun _ => 200)).2
      = ghOrgUrl ((r"alice").toList)
  ∧ ghOrgUrl ((r"alice").toList) ≠ ghOwnerUrl ++ (r"?type=owner").toList :=
  ⟨by decide, by decide, by decide⟩

/-- Claim C7, amended. The constructor `GithubWorkspace.__init__` always probes the
organization endpoint (with auth applied), for every workspace name
including the credentials' own username; only a 404 probe reply switches
the listing URL to `get_user_url`, which picks the authenticated
`/user/repos?type=owner` endpoint when the workspace name equals the
credentials' username case-insensitively, and the public
`/users/{name}/repos` endpoint otherwise. -/
theorem c7_github_listing_url_selection (w : Str) (cred : Option Credentials)
    (net : Str → Nat) :
    (GithubWorkspace.initUrl w cred net).1 = [Auth.auth cred (ghOrgUrl w)]
  ∧ (net (Auth.auth cred (ghOrgUrl w)) ≠ 404 →
      (GithubWorkspace.initUrl w cred net).2 = ghOrgUrl w)
  ∧ (net (Auth.auth cred (ghOrgUrl w)) = 404 →
      (GithubWorkspace.initUrl w cred net).2
        = GithubWorkspace.get_user_url w cred)
  ∧ (∀ c, cred = some c → lowerStr w = lowerStr c.username →
      GithubWorkspace.get_user_url w cred
        = ghOwnerUrl ++ (r"?type=owner").toList)
  ∧ (∀ c, cred = some c → lowerStr w ≠ lowerStr c.username →
      GithubWorkspace.get_user_url w cred = ghUserUrl w)
  ∧ (cred = none → GithubWorkspace.get_user_url w cred = ghUserUrl w) := by
  refine ⟨rfl, fun h => ?_, fun h => ?_, fun c hc he => ?_,
    fun c hc he => ?_, fun hc => ?_⟩
  · simp [GithubWorkspace.initUrl, h]
  · simp [GithubWorkspace.initUrl, h]
  · subst hc
    simp [GithubWorkspace.get_user_url, he]
  · subst hc
    simp [GithubWorkspace.get_user_url, he]
  · subst hc
    rfl

theorem c7_github_listing_url_selection_witness :
    (GithubWorkspace.initUrl ((r"bob").toList)
        (some ⟨(r"alice").toList, (r"p").toList⟩) (fun _ => 404)).2
      = ghUserUrl ((r"bob").toList)
  ∧ (GithubWorkspace.initUrl ((r"alice").toList)
        (some ⟨(r"alice").toList, (r"p").toList⟩) (fun _ => 404)).2
      = ghOwnerUrl ++ (r"?type=owner").toList
  ∧ (GithubWorkspace.initUrl ((r"alice").toList)
        (some ⟨(r"alice").toList, (r"p").toList⟩) (fun _ => 200)).2
      = ghOrgUrl ((r"alice").toList) :=
  ⟨((c7_github_listing_url_selection ((r"bob").toList)
      (some ⟨(r"alice").toList, (r"p").toList⟩) (fun _ => 404)).2.2.1
      rfl).trans
    ((c7_github_listing_url_selection ((r"bob").toList)
      (some ⟨(r"alice").toList, (r"p").toList⟩) (fun _ => 404)).2.2.2.2.1
      ⟨(r"alice").toList, (r"p").toList⟩ rfl (by decide)),
   ((c7_github_listing_url_selection ((r"alice").toList)
      (some ⟨(r"alice").toList, (r"p").toList⟩) (fun _ => 404)).2.2.1
      rfl).trans
    ((c7_github_listing_url_selection ((r"alice").toList)
      (some ⟨(r"alice").toList, (r"p").toList⟩) (fun _ => 404)).2.2.2.1
      ⟨(r"alice").toList, (r"p").toList⟩ rfl (by decide)),
   (c7_github_listing_url_selection ((r"alice").toList)
      (some ⟨(r"alice").toList, (r"p").toList⟩) (fun _ => 200)).2.1
      (by decide)⟩

theorem c9_reference_round_trip_witness :
    (RepoRef.make (bbL ++ ':' :: (r"DavidVilla").toList ++ '/'
        :: (r"ripio").toList) none).map RepoRef.global_name
      = .ok (bbL ++ ':' :: (r"DavidVilla").toList ++ '/'
        :: (r"ripio").toList) :=
  c9_reference_round_trip bbL ((r"DavidVilla").toList) ((r"ripio").toList)
    (Or.inl rfl) (by decide) (by decide) (by decide) (by decide) (by decide)
    (by decide)

theorem auth_some_clean (c : Credentials) {nl tl host : Str}
    (hn : ∀ x ∈ nl, netlocEnd x = false) (ht : headNetloc tl = true)
    (hhost : ('@' ∉ nl ∧ host = nl) ∨
      (∃ a, nl = a ++ '@' :: host ∧ '@' ∉ a ∧ '@' ∉ host)) :
    Auth.auth (some c) ((r"https://").toList ++ (nl ++ tl))
      = (r"https://").toList ++ c.username ++ ':' :: c.password ++ '@'
        :: host ++ tl := by
  have hd : (((r"https://").toList ++ (nl ++ tl))).drop 8 = nl ++ tl := by
    rw [show (8 : Nat) = ((r"https://").toList).length from rfl]
    exact List.drop_left _ _
  simp only [Auth.auth, hd, splitNetloc_append hn ht]
  rcases hhost with ⟨hnotin, rfl⟩ | ⟨a, rfl, ha, hb⟩
  · simp [hnotin]
  · have hmem : '@' ∈ a ++ '@' :: host :=
      List.mem_append_right a (List.mem_cons_self _ _)
    simp [hmem, splitChar_append ha, splitChar_of_not_mem hb]

/-- Claim C10 counterexample. The claim says auth-URL embedding is
idempotent for every credentials value.  The code contradicts it: with a
password containing `@` (constructible through `Credentials`), the second
application picks `netloc.split('@')[1]`, which is a fragment of the
embedded password rather than the host, so `auth(auth(url)) ≠ auth(url)`.
-/
theorem c10_auth_not_idempotent_counterexample :
    Credentials.make ((r"u:p@x").toList)
      = .ok ⟨(r"u").toList, (r"p@x").toList⟩
  ∧ Auth.auth (some ⟨(r"u").toList, (r"p@x").toList⟩)
      (Auth.auth (some ⟨(r"u").toList, (r"p@x").toList⟩)
        ((r"https://host/r").toList))
      ≠ Auth.auth (some ⟨(r"u").toList, (r"p@x").toList⟩)
        ((r"https://host/r").toList) :=
  ⟨by decide, by decide⟩

/-- Claim C10, amended. For credentials whose username and password contain
no `@` and no netloc delimiter, and an https URL whose netloc holds at
most one `@`, `Auth.auth` replaces the existing userinfo rather than
prepending a second one, so `auth (auth url) = auth url`; with credentials
`None` the URL is returned unchanged. -/
theorem c10_auth_idempotent_on_clean_urls (c : Credentials)
    (netloc tail : Str)
    (hu1 : '@' ∉ c.username) (hu2 : ∀ x ∈ c.username, netlocEnd x = false)
    (hp1 : '@' ∉ c.password) (hp2 : ∀ x ∈ c.password, netlocEnd x = false)
    (hn : ∀ x ∈ netloc, netlocEnd x = false)
    (hone : '@' ∉ netloc ∨
      ∃ a b, netloc = a ++ '@' :: b ∧ '@' ∉ a ∧ '@' ∉ b)
    (ht : headNetloc tail = true) :
    Auth.auth (some c) (Auth.auth (some c)
        ((r"https://").toList ++ (netloc ++ tail)))
      = Auth.auth (some c) ((r"https://").toList ++ (netloc ++ tail))
  ∧ Auth.auth none ((r"https://").toList ++ (netloc ++ tail))
      = (r"https://").toList ++ (netloc ++ tail) := by
  refine ⟨?_, rfl⟩
  obtain ⟨host, hhost, hhostmem, hhostat⟩ :
      ∃ host, (('@' ∉ netloc ∧ host = netloc) ∨
        (∃ a, netloc = a ++ '@' :: host ∧ '@' ∉ a ∧ '@' ∉ host)) ∧
        (∀ x ∈ host, netlocEnd x = false) ∧ '@' ∉ host := by
    rcases hone with h | ⟨a, b, rfl, ha, hb⟩
    · exact ⟨netloc, Or.inl ⟨h, rfl⟩, hn, h⟩
    · refine ⟨b, Or.inr ⟨a, rfl, ha, hb⟩, fun x hx => ?_, hb⟩
      exact hn x (List.mem_append_right a (List.mem_cons_of_mem _ hx))
  have h1 := auth_some_clean c hn ht hhost
  rw [h1]
  have hassoc : (r"https://").toList ++ c.username ++ ':' :: c.password
      ++ '@' :: host ++ tail
      = (r"https://").toList
        ++ ((c.username ++ ':' :: c.password ++ '@' :: host) ++ tail) := by
    simp
  rw [hassoc]
  have hn2 : ∀ x ∈ c.username ++ ':' :: c.password ++ '@' :: host,
      netlocEnd x = false := by
    intro x hx
    simp only [List.append_assoc, List.cons_append, List.mem_append,
      List.mem_cons] at hx
    rcases hx with h | h | h | h | h
    · exact hu2 x h
    · subst h; decide
    · exact hp2 x h
    · subst h; decide
    · exact hhostmem x h
  have hhost2 : ('@' ∉ c.username ++ ':' :: c.password ++ '@' :: host ∧
        host = c.username ++ ':' :: c.password ++ '@' :: host) ∨
      (∃ a, c.username ++ ':' :: c.password ++ '@' :: host
        = a ++ '@' :: host ∧ '@' ∉ a ∧ '@' ∉ host) := by
    refine Or.inr ⟨c.username ++ ':' :: c.password, by simp, ?_, hhostat⟩
    exact not_mem_parts hu1 hp1 (by decide)
  have h2 := auth_some_clean c hn2 ht hhost2
  rw [h2, hassoc]

theorem c10_auth_idempotent_on_clean_urls_witness :
    Auth.auth (some ⟨(r"john").toList, (r"secret").toList⟩)
      (Auth.auth (some ⟨(r"john").toList, (r"secret").toList⟩)
        ((r"https://").toList
          ++ ((r"old@bitbucket.org").toList ++ (r"/repo-test/r11").toList)))
      = Auth.auth (some ⟨(r"john").toList, (r"secret").toList⟩)
        ((r"https://").toList
          ++ ((r"old@bitbucket.org").toList ++ (r"/repo-test/r11").toList))
  ∧ Auth.auth none ((r"https://").toList
        ++ ((r"old@bitbucket.org").toList ++ (r"/repo-test/r11").toList))
      = (r"https://").toList
        ++ ((r"old@bitbucket.org").toList ++ (r"/repo-test/r11").toList) :=
  c10_auth_idempotent_on_clean_urls
    ⟨(r"john").toList, (r"secret").toList⟩
    ((r"old@bitbucket.org").toList) ((r"/repo-test/r11").toList)
    (by decide) (by decide) (by decide) (by decide) (by decide)
    (Or.inr ⟨(r"old").toList, (r"bitbucket.org").toList, by decide,
      by decide, by decide⟩)
    (by decide)

end Ripio
